import Mathlib

/-!
Verification of the `scaffold_feature.py` scaffolding tool.

Python strings are modelled as `List Char`; the filesystem is modelled as an
association list from full path strings to file contents (directories are not
tracked: creating parent directories has no observable effect on file
contents).  `Char.toLower`/`Char.toUpper` model Python's `str.lower` /
`str.capitalize` character maps (ASCII, as exercised by this tool).
-/

set_option maxHeartbeats 1000000

/-- Python strings, modelled as lists of characters. -/
abbrev Str := List Char

/-- The filesystem: an association list from full path to file content. -/
abbrev FS := List (Str × Str)

/-- Read a file (`Path.read_text` / existence check). -/
def FS.read (fs : FS) (p : Str) : Option Str :=
  fs.lookup p

/-- Write a file, overwriting any previous content (`Path.write_text`). -/
def FS.write (fs : FS) (p c : Str) : FS :=
  (p, c) :: fs.filter (fun e => !(e.1 == p))

/-- Python whitespace characters recognised by `str.strip()`. -/
def pyIsSpace (c : Char) : Bool :=
  c = ' ' || c = '\t' || c = '\n' || c = '\r' || c = '\x0b' || c = '\x0c'

/-- Python `str.strip()`: drop leading and trailing whitespace. -/
def pyStrip (s : Str) : Str :=
  ((s.dropWhile pyIsSpace).reverse.dropWhile pyIsSpace).reverse

/-- Python `sep.join(items)`. -/
def pyJoin (sep : Str) : List Str → Str
  | [] => []
  | [x] => x
  | x :: y :: rest => x ++ sep ++ pyJoin sep (y :: rest)

/-- Fuel-driven core of Python `str.replace`: replace the leftmost,
non-overlapping occurrences of `pat` by `rep`, scanning left to right.
`fuel` only serves to make the recursion structural; `replaceAll` supplies
enough of it. -/
def replaceAllGo (pat rep : Str) : Nat → Str → Str
  | _, [] => if pat = [] then rep else []
  | 0, s => s
  | fuel + 1, c :: cs =>
    if pat = [] then rep ++ c :: replaceAllGo pat rep fuel cs
    else if pat <+: (c :: cs) then rep ++ replaceAllGo pat rep fuel ((c :: cs).drop pat.length)
    else c :: replaceAllGo pat rep fuel cs

/-- Python `s.replace(pat, rep)`. -/
def replaceAll (pat rep s : Str) : Str :=
  replaceAllGo pat rep s.length s

/-- The placeholder token for a key: two opening braces, the key, two closing
braces (the Python source builds it the same way by string concatenation). -/
def tokOf (k : Str) : Str :=
  '{' :: '{' :: (k ++ ['}', '}'])

/-- `render_template`: one `str.replace` per context entry, in context order. -/
def render_template (template : Str) (context : List (Str × Str)) : Str :=
  context.foldl (fun result kv => replaceAll (tokOf kv.1) kv.2 result) template

/-- `to_snake_case`: `name.lower().replace('-', '_').replace(' ', '_')`
(single-character `str.replace` acts characterwise). -/
def to_snake_case (name : Str) : Str :=
  ((name.map Char.toLower).map (fun c => if c = '-' then '_' else c)).map
    (fun c => if c = ' ' then '_' else c)

/-- Python `str.capitalize()`: first character uppercased, the rest lowercased. -/
def pyCapitalize : Str → Str
  | [] => []
  | c :: cs => Char.toUpper c :: cs.map Char.toLower

/-- `to_pascal_case`: split on the underscore, capitalize each word, join. -/
def to_pascal_case (snake_str : Str) : Str :=
  ((snake_str.splitOn '_').map pyCapitalize).flatten

/-- One entry of a manifest's `files` list. -/
structure FileSpec where
  layer : Str
  template : Str
  output : Str
  deriving DecidableEq

/-- An archetype manifest (the fields this tool reads). -/
structure Manifest where
  name : Str
  displayName : Str
  description : Str
  files : List FileSpec
  deriving DecidableEq

/-- One subdirectory of the archetypes directory: its `manifest.json`
(if present) and its template files. -/
structure ArchDir where
  manifest : Option Manifest
  templates : List (Str × Str)
  deriving DecidableEq

/-- The archetypes directory: subdirectory name to contents, in
filesystem enumeration order. -/
abbrev Store := List (Str × ArchDir)

/-- `list_archetypes`: the manifests of the subdirectories that have one. -/
def list_archetypes (st : Store) : List Manifest :=
  st.filterMap (fun e => e.2.manifest)

/-- Models `get_archetypes_dir()` as a path string. -/
def archetypesPath : Str :=
  "archetypes".toList

/-- `load_archetype`: the manifest of the named subdirectory, or an error
listing every available archetype name. -/
def load_archetype (st : Store) (name : Str) : Except Str Manifest :=
  match (st.lookup name).bind (fun d => d.manifest) with
  | some m => Except.ok m
  | none =>
      Except.error ("Archetype \x27".toList ++ name ++ "\x27 not found. Available: ".toList ++
        pyJoin (", ".toList) ((list_archetypes st).map (fun a => a.name)))

/-- `load_template`: the raw text of a template file, or a `Template not
found` error naming the missing path. -/
def load_template (st : Store) (archetype template_name : Str) : Except Str Str :=
  match (st.lookup archetype).bind (fun d => d.templates.lookup template_name) with
  | some t => Except.ok t
  | none =>
      Except.error ("Template not found: ".toList ++ archetypesPath ++
        '/' :: archetype ++ '/' :: template_name)

/-- The layer-to-path result dictionary of `scaffold_feature`. -/
abbrev Gen := List (Str × Str)

/-- Python dict assignment `d[k] = v`: replace in place if the key exists,
append otherwise. -/
def dictInsert : Gen → Str → Str → Gen
  | [], k, v => [(k, v)]
  | (k', v') :: rest, k, v =>
    if k' = k then (k, v) :: rest else (k', v') :: dictInsert rest k v

/-- The render context built by `scaffold_feature`, in dict insertion order. -/
def mkContext (name description : Str) : List (Str × Str) :=
  [("name".toList, to_snake_case name),
   ("pascal_name".toList, to_pascal_case (to_snake_case name)),
   ("description".toList, description)]

/-- The loop body of `scaffold_feature` over the manifest's file specs:
load the template, render content and output path, write, record by layer.
A failing template load aborts, leaving earlier writes in place. -/
def scaffoldGo (st : Store) (archetype : Str) (context : List (Str × Str)) (target : Str) :
    List FileSpec → FS → Gen → FS × Except Str Gen
  | [], fs, generated => (fs, Except.ok generated)
  | spec :: rest, fs, generated =>
    match load_template st archetype spec.template with
    | Except.error e => (fs, Except.error e)
    | Except.ok tmpl =>
        scaffoldGo st archetype context target rest
          (FS.write fs (target ++ '/' :: render_template spec.output context)
            (render_template tmpl context))
          (dictInsert generated spec.layer (target ++ '/' :: render_template spec.output context))

/-- `scaffold_feature`: load the manifest, then generate every file. -/
def scaffold_feature (st : Store) (fs : FS) (name description archetype target_dir : Str) :
    FS × Except Str Gen :=
  match load_archetype st archetype with
  | Except.error e => (fs, Except.error e)
  | Except.ok manifest =>
      scaffoldGo st archetype (mkContext name description) target_dir manifest.files fs []

deriving instance DecidableEq for Except

/-- The three aggregator files of `update_mod_files` with their module names:
domain (bare name), ports (`_port` suffix), adapters (`_adapter` suffix). -/
def modEntries (target_path snake_name : Str) : List (Str × Str) :=
  [(target_path ++ "/src/domain/mod.rs".toList, snake_name),
   (target_path ++ "/src/ports/mod.rs".toList, snake_name ++ "_port".toList),
   (target_path ++ "/src/adapters/mod.rs".toList, snake_name ++ "_adapter".toList)]

/-- The registration line `pub mod <name>;` with its trailing newline. -/
def modLineOf (mod_name : Str) : Str :=
  "pub mod ".toList ++ mod_name ++ ";\n".toList

/-- One layer of the `update_mod_files` loop: skip when the stripped line is
already a substring of the existing file, append otherwise, create the file
when absent; record the path when the file was touched. -/
def updStep (acc : FS × List Str) (entry : Str × Str) : FS × List Str :=
  match FS.read acc.1 entry.1 with
  | some content =>
      if pyStrip (modLineOf entry.2) <:+: content then acc
      else (FS.write acc.1 entry.1 (content ++ modLineOf entry.2), acc.2 ++ [entry.1])
  | none => (FS.write acc.1 entry.1 (modLineOf entry.2), acc.2 ++ [entry.1])

/-- `update_mod_files`: a no-op except for the `rust_hexagonal` archetype;
otherwise process the three fixed layers in order. -/
def update_mod_files (fs : FS) (target_dir name archetype : Str) : FS × List Str :=
  if archetype = "rust_hexagonal".toList then
    (modEntries target_dir (to_snake_case name)).foldl updStep (fs, [])
  else (fs, [])

/-! ## Equation lemmas for `replaceAll` -/

theorem replaceAllGo_fuel (pat rep : Str) :
    ∀ fuel₁ fuel₂ s, s.length ≤ fuel₁ → s.length ≤ fuel₂ →
      replaceAllGo pat rep fuel₁ s = replaceAllGo pat rep fuel₂ s := by
  intro fuel₁
  induction fuel₁ with
  | zero =>
    intro fuel₂ s h₁ _
    have hs : s = [] := List.eq_nil_of_length_eq_zero (Nat.le_zero.mp h₁)
    subst hs
    cases fuel₂ <;> rfl
  | succ n ih =>
    intro fuel₂ s h₁ h₂
    cases s with
    | nil => cases fuel₂ <;> rfl
    | cons c cs =>
      cases fuel₂ with
      | zero => simp at h₂
      | succ m =>
        simp only [List.length_cons, Nat.add_le_add_iff_right] at h₁ h₂
        simp only [replaceAllGo]
        by_cases hp : pat = []
        · simp only [if_pos hp]
          rw [ih m cs h₁ h₂]
        · simp only [if_neg hp]
          by_cases hpre : pat <+: (c :: cs)
          · simp only [if_pos hpre]
            have hpat : 1 ≤ pat.length := by
              cases pat with
              | nil => exact absurd rfl hp
              | cons p ps => simp
            have hd₁ : ((c :: cs).drop pat.length).length ≤ n := by
              simp only [List.length_drop, List.length_cons]
              omega
            have hd₂ : ((c :: cs).drop pat.length).length ≤ m := by
              simp only [List.length_drop, List.length_cons]
              omega
            rw [ih m _ hd₁ hd₂]
          · simp only [if_neg hpre]
            rw [ih m cs h₁ h₂]

theorem replaceAll_nil (pat rep : Str) :
    replaceAll pat rep [] = if pat = [] then rep else [] := rfl

theorem replaceAll_cons_empty (rep : Str) (c : Char) (cs : Str) :
    replaceAll [] rep (c :: cs) = rep ++ c :: replaceAll [] rep cs := by
  simp [replaceAll, replaceAllGo]

theorem replaceAll_cons_pos (pat rep : Str) (c : Char) (cs : Str) (hne : pat ≠ [])
    (hpre : pat <+: (c :: cs)) :
    replaceAll pat rep (c :: cs) = rep ++ replaceAll pat rep ((c :: cs).drop pat.length) := by
  simp only [replaceAll, List.length_cons, replaceAllGo, if_neg hne, if_pos hpre]
  congr 1
  apply replaceAllGo_fuel
  · have hpat : 1 ≤ pat.length := by
      cases pat with
      | nil => exact absurd rfl hne
      | cons p ps => simp
    simp only [List.length_drop, List.length_cons]
    omega
  · exact Nat.le_refl _

theorem replaceAll_cons_neg (pat rep : Str) (c : Char) (cs : Str) (hne : pat ≠ [])
    (hpre : ¬ pat <+: (c :: cs)) :
    replaceAll pat rep (c :: cs) = c :: replaceAll pat rep cs := by
  simp only [replaceAll, List.length_cons, replaceAllGo, if_neg hne, if_neg hpre]

/-! ## Character-level facts about `Char.toLower` -/

theorem toLower_ne_dash (c : Char) (h : c ≠ '-') : Char.toLower c ≠ '-' := by
  simp only [Char.toLower]
  split
  · rename_i hcond
    obtain ⟨h1, h2⟩ := hcond
    generalize Char.toNat c = n at h1 h2
    interval_cases n <;> decide
  · exact h

theorem toLower_ne_space (c : Char) (h : c ≠ ' ') : Char.toLower c ≠ ' ' := by
  simp only [Char.toLower]
  split
  · rename_i hcond
    obtain ⟨h1, h2⟩ := hcond
    generalize Char.toNat c = n at h1 h2
    interval_cases n <;> decide
  · exact h

/-! ## C6: the name normalizer -/

/-- C6: `to_snake_case` lowercases its input and replaces every dash and every
space character by an underscore, changing no other character; in particular
it sends `stock price` to `stock_price`. -/
theorem to_snake_case_correct :
    (∀ s : Str, to_snake_case s =
      s.map (fun c => if c = '-' ∨ c = ' ' then '_' else Char.toLower c)) ∧
    to_snake_case ("stock price".toList) = "stock_price".toList := by
  constructor
  · intro s
    simp only [to_snake_case, List.map_map]
    congr 1
    funext c
    by_cases hd : c = '-'
    · subst hd; decide
    · by_cases hsp : c = ' '
      · subst hsp; decide
      · have h1 := toLower_ne_dash c hd
        have h2 := toLower_ne_space c hsp
        simp [Function.comp, hd, hsp, h1, h2]
  · decide

/-! ## C7: `to_pascal_case` -/

/-- C7, counterexample: `to_pascal_case` does not merely capitalize the first
letter of each underscore-separated segment — Python's `str.capitalize` also
lowercases the remaining characters, so the input `aB` yields `Ab`, not the
`AB` the claim prescribes. -/
theorem to_pascal_case_counterexample :
    to_pascal_case ("aB".toList) = "Ab".toList ∧ "Ab".toList ≠ "AB".toList := by
  decide

/-- C7, amended: `to_pascal_case` splits on the underscore, uppercases the
first character of each segment and lowercases the remaining characters,
then concatenates the segments with no separator; an empty segment (from a
leading, trailing or doubled underscore) contributes no characters and raises
no error; `stock_price` becomes `StockPrice`. -/
theorem to_pascal_case_amended :
    (∀ s : Str, to_pascal_case s =
      ((s.splitOn '_').map
        (fun w => (w.take 1).map Char.toUpper ++ (w.drop 1).map Char.toLower)).flatten) ∧
    to_pascal_case ("stock_price".toList) = "StockPrice".toList ∧
    to_pascal_case ("_a__b_".toList) = "AB".toList := by
  refine ⟨fun s => ?_, by decide, by decide⟩
  have hcap : pyCapitalize =
      fun w : Str => (w.take 1).map Char.toUpper ++ (w.drop 1).map Char.toLower := by
    funext w
    cases w <;> simp [pyCapitalize]
  simp [to_pascal_case, hcap]

/-! ## C10 and the C2 counterexample: sequential substitution -/

/-- C10: `render_template` substitutes one context key at a time, in context
order, not simultaneously.  With the single-entry context `a := "\x7b\x7bd\x7d\x7d"`
the injected token survives in the output; adding the later entry `d := "Z"`
makes the second pass rewrite the injected token to `Z`. -/
theorem render_template_sequential :
    render_template (tokOf ("a".toList)) [("a".toList, tokOf ("d".toList))] =
      tokOf ("d".toList) ∧
    render_template (tokOf ("a".toList))
      [("a".toList, tokOf ("d".toList)), ("d".toList, "Z".toList)] = "Z".toList := by
  decide

/-- C2, counterexample: on the template `\x7b\x7ba\x7d\x7d` with context
`a := "\x7b\x7bd\x7d\x7d", d := "Z"`, simultaneous substitution as the claim
states it would produce `\x7b\x7bd\x7d\x7d` (the value of `a`, the only token
present in the template), but `render_template` produces `Z`: the value
injected for `a` is itself rewritten by the later key `d`. -/
theorem render_template_c2_counterexample :
    render_template (tokOf ("a".toList))
      [("a".toList, tokOf ("d".toList)), ("d".toList, "Z".toList)] = "Z".toList ∧
    "Z".toList ≠ tokOf ("d".toList) := by
  decide

/-! ## Filesystem read/write lemmas -/

theorem FS.read_write_self (fs : FS) (p c : Str) :
    FS.read (FS.write fs p c) p = some c := by
  simp [FS.read, FS.write, List.lookup]

theorem lookup_filter_out (fs : FS) (p q : Str) (h : q ≠ p) :
    (fs.filter (fun e => !(e.1 == p))).lookup q = fs.lookup q := by
  induction fs with
  | nil => rfl
  | cons hd tl ih =>
    obtain ⟨k, v⟩ := hd
    by_cases hk : k = p
    · subst hk
      have hq : (q == k) = false := by simpa using h
      simp [List.filter, List.lookup, hq, ih]
    · have hk' : (k == p) = false := by simpa using hk
      simp only [List.filter, hk', Bool.not_false]
      by_cases hq : q = k
      · subst hq
        simp [List.lookup]
      · have hq' : (q == k) = false := by simpa using hq
        simp [List.lookup, hq', ih]

theorem FS.read_write_ne (fs : FS) (p c q : Str) (h : q ≠ p) :
    FS.read (FS.write fs p c) q = FS.read fs q := by
  have hq : (q == p) = false := by simpa using h
  simp [FS.read, FS.write, List.lookup, hq, lookup_filter_out fs p q h]

/-! ## `pyStrip` of a registration line -/

theorem pyStrip_modLine (n : Str) :
    pyStrip (modLineOf n) = "pub mod ".toList ++ n ++ [';'] := by
  have hp : pyIsSpace 'p' = false := rfl
  have hnl : pyIsSpace '\n' = true := rfl
  have hsemi : pyIsSpace ';' = false := rfl
  have hA : "pub mod ".toList = 'p' :: "ub mod ".toList := rfl
  have hB : ";\n".toList = [';', '\n'] := rfl
  simp only [pyStrip, modLineOf, hA, hB, List.cons_append, List.dropWhile_cons, hp,
    Bool.false_eq_true, if_false, List.reverse_cons, List.reverse_append]
  simp only [List.append_assoc, List.cons_append, List.nil_append, List.dropWhile_cons, hnl,
    if_true, hsemi, Bool.false_eq_true, if_false, List.reverse_cons, List.reverse_append,
    List.reverse_reverse, List.reverse_nil]

theorem pyStrip_modLine_sub (n : Str) :
    pyStrip (modLineOf n) <:+: modLineOf n := by
  rw [pyStrip_modLine]
  apply List.IsPrefix.isInfix
  refine ⟨['\n'], ?_⟩
  simp [modLineOf]

theorem infix_append_left (l m r : Str) (h : l <:+: r) : l <:+: m ++ r := by
  obtain ⟨s, t, rfl⟩ := h
  exact ⟨m ++ s, t, by simp⟩

/-! ## One step of the aggregator updater -/

theorem updStep_skip (acc : FS × List Str) (e : Str × Str) (c : Str)
    (hr : FS.read acc.1 e.1 = some c) (hin : pyStrip (modLineOf e.2) <:+: c) :
    updStep acc e = acc := by
  simp [updStep, hr, hin]

theorem updStep_read_self (acc : FS × List Str) (e : Str × Str) :
    ∃ c, FS.read (updStep acc e).1 e.1 = some c ∧ pyStrip (modLineOf e.2) <:+: c := by
  rcases hr : FS.read acc.1 e.1 with _ | c
  · refine ⟨modLineOf e.2, ?_, pyStrip_modLine_sub e.2⟩
    simp [updStep, hr, FS.read_write_self]
  · by_cases hin : pyStrip (modLineOf e.2) <:+: c
    · exact ⟨c, by simp [updStep, hr, hin], hin⟩
    · refine ⟨c ++ modLineOf e.2, ?_, infix_append_left _ _ _ (pyStrip_modLine_sub e.2)⟩
      simp [updStep, hr, hin, FS.read_write_self]

theorem updStep_read_ne (acc : FS × List Str) (e : Str × Str) (q : Str) (h : q ≠ e.1) :
    FS.read (updStep acc e).1 q = FS.read acc.1 q := by
  rcases hr : FS.read acc.1 e.1 with _ | c
  · simp [updStep, hr, FS.read_write_ne _ _ _ _ h]
  · by_cases hin : pyStrip (modLineOf e.2) <:+: c
    · simp [updStep, hr, hin]
    · simp [updStep, hr, hin, FS.read_write_ne _ _ _ _ h]

theorem updStep_snd_cases (acc : FS × List Str) (e : Str × Str) :
    (updStep acc e).2 = acc.2 ∨ (updStep acc e).2 = acc.2 ++ [e.1] := by
  rcases hr : FS.read acc.1 e.1 with _ | c
  · right; simp [updStep, hr]
  · by_cases hin : pyStrip (modLineOf e.2) <:+: c
    · left; simp [updStep, hr, hin]
    · right; simp [updStep, hr, hin]

theorem foldl_updStep_snd_grows (entries : List (Str × Str)) :
    ∀ acc : FS × List Str, acc.2 <+: (entries.foldl updStep acc).2 := by
  induction entries with
  | nil => intro acc; exact List.prefix_rfl
  | cons e rest ih =>
    intro acc
    have h1 := updStep_snd_cases acc e
    have h2 := ih (updStep acc e)
    rcases h1 with h1 | h1
    · rw [List.foldl_cons]
      exact h1 ▸ h2
    · rw [List.foldl_cons]
      refine List.IsPrefix.trans ?_ h2
      rw [h1]
      exact ⟨[e.1], rfl⟩

/-- `pyStrip s` is always a contiguous substring of `s`. -/
theorem pyStrip_sub (s : Str) : pyStrip s <:+: s := by
  have h1 : s.dropWhile pyIsSpace <:+ s := List.dropWhile_suffix _
  have h2 : (s.dropWhile pyIsSpace).reverse.dropWhile pyIsSpace <:+
      (s.dropWhile pyIsSpace).reverse := List.dropWhile_suffix _
  have h3 := h2.reverse
  rw [List.reverse_reverse] at h3
  exact (List.IsPrefix.isInfix h3).trans (List.IsSuffix.isInfix h1)

/-- What one layer of the updater guarantees about the final state, phrased
against the filesystem `fs` seen before the whole update ran: an existing
aggregator that already contains the stripped line is untouched and not
reported; an existing aggregator without it gains the appended line and is
reported; an absent aggregator is created holding exactly the line and is
reported. -/
def layerOutcome (fs fs' : FS) (upd : List Str) (p line : Str) : Prop :=
  match FS.read fs p with
  | some content =>
      if pyStrip line <:+: content
      then FS.read fs' p = some content ∧ p ∉ upd
      else FS.read fs' p = some (content ++ line) ∧ p ∈ upd
  | none => FS.read fs' p = some line ∧ p ∈ upd

theorem layerOutcome_read {fs fs' : FS} {upd : List Str} {p line : Str}
    (h : layerOutcome fs fs' upd p line) :
    ∃ c, FS.read fs' p = some c ∧ pyStrip line <:+: c := by
  rcases hr : FS.read fs p with _ | content
  · simp only [layerOutcome, hr] at h
    exact ⟨line, h.1, pyStrip_sub line⟩
  · simp only [layerOutcome, hr] at h
    by_cases hin : pyStrip line <:+: content
    · rw [if_pos hin] at h
      exact ⟨content, h.1, hin⟩
    · rw [if_neg hin] at h
      exact ⟨content ++ line, h.1, infix_append_left _ _ _ (pyStrip_sub line)⟩

theorem foldl_updStep_spec :
    ∀ (entries : List (Str × Str)) (fs : FS) (u0 : List Str),
      List.Pairwise (fun a b => a.1 ≠ b.1) entries →
      (∀ e ∈ entries, e.1 ∉ u0) →
      (∀ e ∈ entries,
        layerOutcome fs (entries.foldl updStep (fs, u0)).1 (entries.foldl updStep (fs, u0)).2
          e.1 (modLineOf e.2)) ∧
      (∀ q, (∀ e ∈ entries, q ≠ e.1) →
        FS.read (entries.foldl updStep (fs, u0)).1 q = FS.read fs q) ∧
      (∀ q, q ∈ (entries.foldl updStep (fs, u0)).2 → q ∈ u0 ∨ ∃ e ∈ entries, q = e.1) := by
  intro entries
  induction entries with
  | nil =>
    intro fs u0 _ _
    exact ⟨by simp, fun q _ => rfl, fun q h => Or.inl h⟩
  | cons e rest ih =>
    intro fs u0 hpw hu0
    have hpw_head : ∀ e' ∈ rest, e.1 ≠ e'.1 := (List.pairwise_cons.mp hpw).1
    have hpw_rest : List.Pairwise (fun a b => a.1 ≠ b.1) rest := (List.pairwise_cons.mp hpw).2
    simp only [List.foldl_cons]
    set acc1 := updStep (fs, u0) e with hacc1
    have hread1 : ∀ e' ∈ rest, FS.read acc1.1 e'.1 = FS.read fs e'.1 := by
      intro e' he'
      exact updStep_read_ne (fs, u0) e e'.1 (Ne.symm (hpw_head e' he'))
    have hu1 : ∀ e' ∈ rest, e'.1 ∉ acc1.2 := by
      intro e' he'
      rcases updStep_snd_cases (fs, u0) e with hca | hca
      · rw [hacc1, hca]; exact hu0 e' (List.mem_cons_of_mem _ he')
      · rw [hacc1, hca]
        intro hmem
        rcases List.mem_append.mp hmem with hm | hm
        · exact hu0 e' (List.mem_cons_of_mem _ he') hm
        · have he1 : e'.1 = e.1 := by simpa using hm
          exact hpw_head e' he' he1.symm
    obtain ⟨ihA, ihB, ihC⟩ := ih acc1.1 acc1.2 hpw_rest hu1
    refine ⟨?_, ?_, ?_⟩
    · intro e' he'
      rcases List.mem_cons.mp he' with rfl | he'
      · have hreadF : FS.read (rest.foldl updStep acc1).1 e'.1 = FS.read acc1.1 e'.1 :=
          ihB e'.1 (fun er her => hpw_head er her)
        rcases hr : FS.read fs e'.1 with _ | content
        · have h1 : FS.read acc1.1 e'.1 = some (modLineOf e'.2) := by
            simp [hacc1, updStep, hr, FS.read_write_self]
          have h2 : acc1.2 = u0 ++ [e'.1] := by simp [hacc1, updStep, hr]
          simp only [layerOutcome, hr]
          refine ⟨hreadF.trans h1, ?_⟩
          exact (foldl_updStep_snd_grows rest acc1).subset (by rw [h2]; simp)
        · by_cases hin : pyStrip (modLineOf e'.2) <:+: content
          · simp only [layerOutcome, hr, if_pos hin]
            have h1 : acc1 = (fs, u0) := updStep_skip (fs, u0) e' content hr hin
            refine ⟨by rw [hreadF, h1]; exact hr, ?_⟩
            intro hmem
            rcases ihC e'.1 hmem with hm | ⟨er, her, heq⟩
            · rw [h1] at hm; exact hu0 e' (List.mem_cons_self _ _) hm
            · exact hpw_head er her heq
          · simp only [layerOutcome, hr, if_neg hin]
            have h1 : FS.read acc1.1 e'.1 = some (content ++ modLineOf e'.2) := by
              simp [hacc1, updStep, hr, hin, FS.read_write_self]
            have h2 : acc1.2 = u0 ++ [e'.1] := by simp [hacc1, updStep, hr, hin]
            refine ⟨hreadF.trans h1, ?_⟩
            exact (foldl_updStep_snd_grows rest acc1).subset (by rw [h2]; simp)
      · have hA := ihA e' he'
        have ht := hread1 e' he'
        unfold layerOutcome at hA ⊢
        rw [ht] at hA
        exact hA
    · intro q hq
      have h1 : FS.read (rest.foldl updStep acc1).1 q = FS.read acc1.1 q :=
        ihB q (fun er her => hq er (List.mem_cons_of_mem _ her))
      have h2 : FS.read acc1.1 q = FS.read fs q :=
        updStep_read_ne (fs, u0) e q (hq e (List.mem_cons_self _ _))
      exact h1.trans h2
    · intro q hmem
      rcases ihC q hmem with hm | ⟨er, her, heq⟩
      · rcases updStep_snd_cases (fs, u0) e with hca | hca
        · rw [hacc1, hca] at hm; exact Or.inl hm
        · rw [hacc1, hca] at hm
          rcases List.mem_append.mp hm with hm' | hm'
          · exact Or.inl hm'
          · exact Or.inr ⟨e, List.mem_cons_self _ _, by simpa using hm'⟩
      · exact Or.inr ⟨er, List.mem_cons_of_mem _ her, heq⟩

theorem modEntries_pairwise (target snake : Str) :
    List.Pairwise (fun a b => a.1 ≠ b.1) (modEntries target snake) := by
  have h12 : target ++ "/src/domain/mod.rs".toList ≠ target ++ "/src/ports/mod.rs".toList := by
    intro h
    exact absurd (List.append_cancel_left h) (by decide)
  have h13 : target ++ "/src/domain/mod.rs".toList ≠ target ++ "/src/adapters/mod.rs".toList := by
    intro h
    exact absurd (List.append_cancel_left h) (by decide)
  have h23 : target ++ "/src/ports/mod.rs".toList ≠ target ++ "/src/adapters/mod.rs".toList := by
    intro h
    exact absurd (List.append_cancel_left h) (by decide)
  simp [modEntries, List.pairwise_cons, h12, h13, h23]

theorem update_mod_files_hex_eq (fs : FS) (target name : Str) :
    update_mod_files fs target name ("rust_hexagonal".toList) =
      (modEntries target (to_snake_case name)).foldl updStep (fs, []) := by
  simp [update_mod_files]

/-! ## C1: the aggregator updater for `rust_hexagonal` -/

/-- C1: for the `rust_hexagonal` archetype, `update_mod_files` processes
exactly the three fixed layers (domain/ports/adapters, with registration
lines `pub mod <snake>;`, `pub mod <snake>_port;`, `pub mod <snake>_adapter;`):
an aggregator that already contains the stripped line is left unchanged and
not reported; otherwise the line is appended (or the file created), and every
reported path is one of the three aggregator paths that was actually created
or modified; no other file changes. -/
theorem update_mod_files_rust_hexagonal (fs : FS) (target name : Str) :
    (∀ e ∈ modEntries target (to_snake_case name),
      layerOutcome fs (update_mod_files fs target name ("rust_hexagonal".toList)).1
        (update_mod_files fs target name ("rust_hexagonal".toList)).2 e.1 (modLineOf e.2)) ∧
    (∀ q, (∀ e ∈ modEntries target (to_snake_case name), q ≠ e.1) →
      FS.read (update_mod_files fs target name ("rust_hexagonal".toList)).1 q = FS.read fs q) ∧
    (∀ q ∈ (update_mod_files fs target name ("rust_hexagonal".toList)).2,
      ∃ e ∈ modEntries target (to_snake_case name), q = e.1) := by
  have h := foldl_updStep_spec (modEntries target (to_snake_case name)) fs []
    (modEntries_pairwise target (to_snake_case name)) (by simp)
  rw [update_mod_files_hex_eq]
  obtain ⟨a, b, c⟩ := h
  refine ⟨a, b, fun q hq => ?_⟩
  rcases c q hq with hm | hm
  · exact absurd hm (by simp)
  · exact hm

/-- Witness for C1 at a concrete input: updating an empty filesystem for the
feature `my-feat` creates the domain aggregator containing exactly
`pub mod my_feat;` and reports its path. -/
theorem update_mod_files_rust_hexagonal_witness :
    layerOutcome []
      (update_mod_files [] ("t".toList) ("my-feat".toList) ("rust_hexagonal".toList)).1
      (update_mod_files [] ("t".toList) ("my-feat".toList) ("rust_hexagonal".toList)).2
      ("t".toList ++ "/src/domain/mod.rs".toList) (modLineOf ("my_feat".toList)) := by
  have h := (update_mod_files_rust_hexagonal [] ("t".toList) ("my-feat".toList)).1
    ("t".toList ++ "/src/domain/mod.rs".toList, "my_feat".toList) (by decide)
  exact h

/-! ## C4: the aggregator updater is idempotent -/

theorem foldl_updStep_all_skip (entries : List (Str × Str)) :
    ∀ acc : FS × List Str,
      (∀ e ∈ entries, ∃ c, FS.read acc.1 e.1 = some c ∧ pyStrip (modLineOf e.2) <:+: c) →
      entries.foldl updStep acc = acc := by
  induction entries with
  | nil => intro acc _; rfl
  | cons e rest ih =>
    intro acc h
    obtain ⟨c, hr, hin⟩ := h e (List.mem_cons_self _ _)
    rw [List.foldl_cons, updStep_skip acc e c hr hin]
    exact ih acc (fun e' he' => h e' (List.mem_cons_of_mem _ he'))

/-- C4: running `update_mod_files` twice with the same target, name and
archetype leaves the filesystem of the first run untouched and reports zero
updated paths on the second run. -/
theorem update_mod_files_idempotent (fs : FS) (target name archetype : Str) :
    update_mod_files (update_mod_files fs target name archetype).1 target name archetype =
      ((update_mod_files fs target name archetype).1, ([] : List Str)) := by
  by_cases ha : archetype = "rust_hexagonal".toList
  · subst ha
    have h := foldl_updStep_spec (modEntries target (to_snake_case name)) fs []
      (modEntries_pairwise target (to_snake_case name)) (by simp)
    have hall : ∀ e ∈ modEntries target (to_snake_case name),
        ∃ c, FS.read (update_mod_files fs target name ("rust_hexagonal".toList)).1 e.1 = some c ∧
          pyStrip (modLineOf e.2) <:+: c := by
      intro e he
      have houtcome := h.1 e he
      rw [update_mod_files_hex_eq]
      exact layerOutcome_read houtcome
    rw [update_mod_files_hex_eq (update_mod_files fs target name ("rust_hexagonal".toList)).1]
    exact foldl_updStep_all_skip _ _ hall
  · have h1 : ∀ g : FS, update_mod_files g target name archetype = (g, ([] : List Str)) := by
      intro g
      unfold update_mod_files
      rw [if_neg ha]
    rw [h1, h1]

/-! ## A pure plan of the scaffolder's writes -/

/-- The list of (layer, path, content) triples the scaffolder will produce,
or the template error that stops it.  This is a proof artifact: it reads no
filesystem state, which is what makes the scaffolder deterministic. -/
def planItems (st : Store) (archetype : Str) (ctx : List (Str × Str)) (target : Str) :
    List FileSpec → Except Str (List (Str × Str × Str))
  | [] => Except.ok []
  | spec :: rest =>
    match load_template st archetype spec.template with
    | Except.error e => Except.error e
    | Except.ok tmpl =>
      match planItems st archetype ctx target rest with
      | Except.error e => Except.error e
      | Except.ok items =>
          Except.ok ((spec.layer, target ++ '/' :: render_template spec.output ctx,
            render_template tmpl ctx) :: items)

/-- Apply the planned writes in order. -/
def applyWrites (items : List (Str × Str × Str)) (fs : FS) : FS :=
  items.foldl (fun g it => FS.write g it.2.1 it.2.2) fs

/-- Record the planned layer-to-path entries in order. -/
def applyGens (items : List (Str × Str × Str)) (gen : Gen) : Gen :=
  items.foldl (fun g it => dictInsert g it.1 it.2.1) gen

/-- The content of the last planned write to path `p`, if any. -/
def findLast (items : List (Str × Str × Str)) (p : Str) : Option Str :=
  match items with
  | [] => none
  | it :: rest =>
    match findLast rest p with
    | some c => some c
    | none => if it.2.1 = p then some it.2.2 else none

theorem read_applyWrites (items : List (Str × Str × Str)) :
    ∀ (fs : FS) (p : Str),
      FS.read (applyWrites items fs) p =
        match findLast items p with
        | some c => some c
        | none => FS.read fs p := by
  induction items with
  | nil => intro fs p; rfl
  | cons it rest ih =>
    intro fs p
    have hstep : applyWrites (it :: rest) fs = applyWrites rest (FS.write fs it.2.1 it.2.2) := rfl
    rw [hstep, ih]
    rcases hf : findLast rest p with _ | c
    · simp only [findLast, hf]
      by_cases hp : it.2.1 = p
      · subst hp
        rw [if_pos rfl, FS.read_write_self]
      · rw [if_neg hp, FS.read_write_ne _ _ _ _ (Ne.symm hp)]
    · simp only [findLast, hf]

theorem findLast_eq_none (items : List (Str × Str × Str)) (q : Str)
    (h : ∀ it ∈ items, q ≠ it.2.1) : findLast items q = none := by
  induction items with
  | nil => rfl
  | cons it rest ih =>
    rw [findLast, ih (fun it' hi => h it' (List.mem_cons_of_mem _ hi))]
    rw [if_neg (Ne.symm (h it (List.mem_cons_self _ _)))]

theorem scaffoldGo_plan_ok (st : Store) (archetype : Str) (ctx : List (Str × Str))
    (target : Str) :
    ∀ (specs : List FileSpec) (fs : FS) (gen : Gen) (items : List (Str × Str × Str)),
      planItems st archetype ctx target specs = Except.ok items →
      scaffoldGo st archetype ctx target specs fs gen =
        (applyWrites items fs, Except.ok (applyGens items gen)) := by
  intro specs
  induction specs with
  | nil =>
    intro fs gen items h
    simp only [planItems, Except.ok.injEq] at h
    subst h
    rfl
  | cons spec rest ih =>
    intro fs gen items h
    rcases hl : load_template st archetype spec.template with e | tmpl
    · rw [planItems, hl] at h
      cases h
    · rw [planItems, hl] at h
      rcases hp : planItems st archetype ctx target rest with e | items'
      · rw [hp] at h
        cases h
      · rw [hp] at h
        simp only [Except.ok.injEq] at h
        subst h
        simp only [scaffoldGo, hl]
        exact ih _ _ items' hp

theorem scaffoldGo_plan_error (st : Store) (archetype : Str) (ctx : List (Str × Str))
    (target : Str) (bad : FileSpec) (post : List FileSpec) (e : Str)
    (hbad : load_template st archetype bad.template = Except.error e) :
    ∀ (pre : List FileSpec) (fs : FS) (gen : Gen) (items : List (Str × Str × Str)),
      planItems st archetype ctx target pre = Except.ok items →
      scaffoldGo st archetype ctx target (pre ++ bad :: post) fs gen =
        (applyWrites items fs, Except.error e) := by
  intro pre
  induction pre with
  | nil =>
    intro fs gen items h
    simp only [planItems, Except.ok.injEq] at h
    subst h
    simp only [List.nil_append, scaffoldGo, hbad]
    rfl
  | cons spec rest ih =>
    intro fs gen items h
    rcases hl : load_template st archetype spec.template with e' | tmpl
    · rw [planItems, hl] at h
      cases h
    · rw [planItems, hl] at h
      rcases hp : planItems st archetype ctx target rest with e' | items'
      · rw [hp] at h
        cases h
      · rw [hp] at h
        simp only [Except.ok.injEq] at h
        subst h
        simp only [List.cons_append, scaffoldGo, hl]
        exact ih _ _ items' hp

theorem scaffoldGo_plan_error_snd (st : Store) (archetype : Str) (ctx : List (Str × Str))
    (target : Str) :
    ∀ (specs : List FileSpec) (fs : FS) (gen : Gen) (e : Str),
      planItems st archetype ctx target specs = Except.error e →
      (scaffoldGo st archetype ctx target specs fs gen).2 = Except.error e := by
  intro specs
  induction specs with
  | nil =>
    intro fs gen e h
    cases h
  | cons spec rest ih =>
    intro fs gen e h
    rcases hl : load_template st archetype spec.template with e' | tmpl
    · rw [planItems, hl] at h
      cases h
      simp only [scaffoldGo, hl]
    · rw [planItems, hl] at h
      rcases hp : planItems st archetype ctx target rest with e' | items'
      · rw [hp] at h
        cases h
        simp only [scaffoldGo, hl]
        exact ih _ _ _ hp
      · rw [hp] at h
        cases h

/-! ## C3: scaffolding is deterministic, re-running overwrites identically -/

/-- C3: if scaffolding succeeds, running it a second time into the directory
it just populated succeeds again, returns the same layer-to-path mapping, and
leaves every file with the same content as after the first run: the planned
writes depend only on name, description and archetype (with the store fixed),
so the second run overwrites each generated file with identical bytes. -/
theorem scaffold_feature_idempotent (st : Store) (fs fs₁ : FS)
    (name description archetype target : Str) (gen₁ : Gen)
    (h : scaffold_feature st fs name description archetype target = (fs₁, Except.ok gen₁)) :
    ∃ fs₂, scaffold_feature st fs₁ name description archetype target = (fs₂, Except.ok gen₁) ∧
      ∀ p, FS.read fs₂ p = FS.read fs₁ p := by
  unfold scaffold_feature at h ⊢
  rcases hm : load_archetype st archetype with e | m
  · simp only [hm] at h
    simp at h
  · simp only [hm] at h ⊢
    rcases hp : planItems st archetype (mkContext name description) target m.files with e | items
    · have hsnd := scaffoldGo_plan_error_snd st archetype (mkContext name description) target
        m.files fs [] e hp
      rw [h] at hsnd
      simp at hsnd
    · have h1 := scaffoldGo_plan_ok st archetype (mkContext name description) target
        m.files fs [] items hp
      rw [h1] at h
      obtain ⟨hfs, hgen⟩ := Prod.mk.injEq .. ▸ h
      have hgen' : applyGens items [] = gen₁ := by
        injection hgen
      have h2 := scaffoldGo_plan_ok st archetype (mkContext name description) target
        m.files fs₁ [] items hp
      refine ⟨applyWrites items fs₁, by rw [h2, hgen'], ?_⟩
      intro p
      rw [read_applyWrites]
      rcases hf : findLast items p with _ | c
      · rfl
      · rw [← hfs, read_applyWrites items fs p, hf]

/-- Witness for C3: a one-file archetype rendered twice into the same target. -/
def c3Store : Store :=
  [("x".toList,
    { manifest := some
        { name := "x".toList, displayName := "X".toList, description := "d".toList,
          files := [{ layer := "L".toList, template := "t1".toList, output := "o.rs".toList }] }
      templates := [("t1".toList, tokOf ("pascal_name".toList))] })]

theorem scaffold_feature_idempotent_witness :
    scaffold_feature c3Store [] ("ab".toList) ("dd".toList) ("x".toList) ("t".toList) =
      ([(("t/o.rs").toList, "Ab".toList)], Except.ok [("L".toList, ("t/o.rs").toList)]) ∧
    ∃ fs₂,
      scaffold_feature c3Store [(("t/o.rs").toList, "Ab".toList)] ("ab".toList) ("dd".toList)
          ("x".toList) ("t".toList) = (fs₂, Except.ok [("L".toList, ("t/o.rs").toList)]) ∧
      ∀ p, FS.read fs₂ p = FS.read [(("t/o.rs").toList, "Ab".toList)] p :=
  ⟨by decide,
    scaffold_feature_idempotent c3Store [] [(("t/o.rs").toList, "Ab".toList)] ("ab".toList)
      ("dd".toList) ("x".toList) ("t".toList) [("L".toList, ("t/o.rs").toList)] (by decide)⟩

/-! ## C5: duplicate layer keys in one manifest -/

/-- C5: when a manifest lists two file specs with the same `layer` value (and
distinct rendered output paths), `scaffold_feature` writes both rendered
files to disk, but the returned mapping holds only the later spec's path:
the earlier entry is silently overwritten under the shared layer key. -/
theorem scaffold_feature_layer_collision (st : Store) (fs : FS)
    (name description archetype target : Str) (m : Manifest) (s1 s2 : FileSpec) (t1 t2 : Str)
    (hm : load_archetype st archetype = Except.ok m)
    (hf : m.files = [s1, s2])
    (hl : s1.layer = s2.layer)
    (ht1 : load_template st archetype s1.template = Except.ok t1)
    (ht2 : load_template st archetype s2.template = Except.ok t2)
    (hp : target ++ '/' :: render_template s1.output (mkContext name description) ≠
          target ++ '/' :: render_template s2.output (mkContext name description)) :
    scaffold_feature st fs name description archetype target =
      (FS.write (FS.write fs
          (target ++ '/' :: render_template s1.output (mkContext name description))
          (render_template t1 (mkContext name description)))
        (target ++ '/' :: render_template s2.output (mkContext name description))
        (render_template t2 (mkContext name description)),
       Except.ok [(s2.layer,
         target ++ '/' :: render_template s2.output (mkContext name description))]) ∧
    FS.read (scaffold_feature st fs name description archetype target).1
        (target ++ '/' :: render_template s1.output (mkContext name description)) =
      some (render_template t1 (mkContext name description)) ∧
    FS.read (scaffold_feature st fs name description archetype target).1
        (target ++ '/' :: render_template s2.output (mkContext name description)) =
      some (render_template t2 (mkContext name description)) := by
  have hmain : scaffold_feature st fs name description archetype target =
      (FS.write (FS.write fs
          (target ++ '/' :: render_template s1.output (mkContext name description))
          (render_template t1 (mkContext name description)))
        (target ++ '/' :: render_template s2.output (mkContext name description))
        (render_template t2 (mkContext name description)),
       Except.ok [(s2.layer,
         target ++ '/' :: render_template s2.output (mkContext name description))]) := by
    unfold scaffold_feature
    simp only [hm, hf]
    simp only [scaffoldGo, ht1, ht2]
    simp [dictInsert, hl]
  refine ⟨hmain, ?_, ?_⟩
  · rw [hmain]
    rw [FS.read_write_ne _ _ _ _ hp, FS.read_write_self]
  · rw [hmain]
    rw [FS.read_write_self]

/-- Witness data for C5: two specs sharing the layer `L`. -/
def c5spec1 : FileSpec :=
  { layer := "L".toList, template := "t1".toList, output := "a.rs".toList }

def c5spec2 : FileSpec :=
  { layer := "L".toList, template := "t2".toList, output := "b.rs".toList }

def c5Manifest : Manifest :=
  { name := "x".toList, displayName := "X".toList, description := "d".toList,
    files := [c5spec1, c5spec2] }

def c5Store : Store :=
  [("x".toList,
    { manifest := some c5Manifest
      templates := [("t1".toList, "one".toList), ("t2".toList, "two".toList)] })]

/-- Witness for C5: both files are written, the mapping reports only the
second path under the shared layer key. -/
theorem scaffold_feature_layer_collision_witness :
    (load_archetype c5Store ("x".toList) = Except.ok c5Manifest ∧
      c5spec1.layer = c5spec2.layer) ∧
    scaffold_feature c5Store [] ("ab".toList) ("dd".toList) ("x".toList) ("t".toList) =
      (FS.write (FS.write []
          ("t".toList ++ '/' :: render_template c5spec1.output (mkContext ("ab".toList) ("dd".toList)))
          (render_template ("one".toList) (mkContext ("ab".toList) ("dd".toList))))
        ("t".toList ++ '/' :: render_template c5spec2.output (mkContext ("ab".toList) ("dd".toList)))
        (render_template ("two".toList) (mkContext ("ab".toList) ("dd".toList))),
       Except.ok [(c5spec2.layer,
         "t".toList ++ '/' :: render_template c5spec2.output (mkContext ("ab".toList) ("dd".toList)))]) :=
  ⟨⟨by decide, by decide⟩,
    (scaffold_feature_layer_collision c5Store [] ("ab".toList) ("dd".toList) ("x".toList)
      ("t".toList) c5Manifest c5spec1 c5spec2 ("one".toList) ("two".toList) (by decide) rfl
      (by decide) (by decide) (by decide) (by decide)).1⟩

/-! ## C8: unknown archetype -/

theorem mem_infix_pyJoin (sep : Str) (l : List Str) (x : Str) (hx : x ∈ l) :
    x <:+: pyJoin sep l := by
  induction l with
  | nil => cases hx
  | cons y rest ih =>
    cases rest with
    | nil =>
      have hxy : x = y := by simpa using hx
      subst hxy
      exact List.infix_refl _
    | cons z rest' =>
      rcases List.mem_cons.mp hx with rfl | hx'
      · exact List.IsPrefix.isInfix ⟨sep ++ pyJoin sep (z :: rest'), by simp [pyJoin]⟩
      · show x <:+: y ++ sep ++ pyJoin sep (z :: rest')
        exact infix_append_left x (y ++ sep) _ (ih hx')

/-- C8: when no manifest exists for the requested archetype, `load_archetype`
fails with an error message that contains every currently available archetype
name, and `scaffold_feature` propagates exactly that failure without touching
any file. -/
theorem load_archetype_not_found (st : Store) (fs : FS)
    (name description archName target : Str)
    (h : (st.lookup archName).bind (fun d => d.manifest) = none) :
    ∃ msg, load_archetype st archName = Except.error msg ∧
      (∀ m ∈ list_archetypes st, m.name <:+: msg) ∧
      scaffold_feature st fs name description archName target = (fs, Except.error msg) := by
  refine ⟨"Archetype \x27".toList ++ archName ++ "\x27 not found. Available: ".toList ++
    pyJoin (", ".toList) ((list_archetypes st).map (fun a => a.name)), ?_, ?_, ?_⟩
  · unfold load_archetype
    rw [h]
  · intro m hm
    exact infix_append_left _ _ _
      (mem_infix_pyJoin (", ".toList) _ m.name (List.mem_map_of_mem _ hm))
  · unfold scaffold_feature load_archetype
    rw [h]

/-- Witness for C8: requesting the archetype `foo` from a store offering only
`x` yields the not-found error and an unchanged filesystem. -/
theorem load_archetype_not_found_witness :
    ((c3Store.lookup ("foo".toList)).bind (fun d => d.manifest) = none) ∧
    ∃ msg, load_archetype c3Store ("foo".toList) = Except.error msg ∧
      (∀ m ∈ list_archetypes c3Store, m.name <:+: msg) ∧
      scaffold_feature c3Store [] ("a".toList) ("d".toList) ("foo".toList) ("t".toList) =
        ([], Except.error msg) :=
  ⟨by decide,
    load_archetype_not_found c3Store [] ("a".toList) ("d".toList) ("foo".toList) ("t".toList)
      (by decide)⟩

/-! ## C9: scaffolding is not transactional -/

/-- C9: when the template of one file spec is missing, `scaffold_feature`
raises exactly that template error, with the files of every earlier spec
already written (the planned writes of the prefix) and nothing else touched —
in particular no file of the failing spec or of any later spec. -/
theorem scaffold_feature_non_atomic (st : Store) (fs : FS)
    (name description archetype target : Str) (m : Manifest)
    (pre : List FileSpec) (bad : FileSpec) (post : List FileSpec)
    (items : List (Str × Str × Str)) (e : Str)
    (hm : load_archetype st archetype = Except.ok m)
    (hfiles : m.files = pre ++ bad :: post)
    (hpre : planItems st archetype (mkContext name description) target pre = Except.ok items)
    (hbad : load_template st archetype bad.template = Except.error e) :
    scaffold_feature st fs name description archetype target =
      (applyWrites items fs, Except.error e) ∧
    (∀ q, (∀ it ∈ items, q ≠ it.2.1) →
      FS.read (scaffold_feature st fs name description archetype target).1 q = FS.read fs q) := by
  have hmain : scaffold_feature st fs name description archetype target =
      (applyWrites items fs, Except.error e) := by
    unfold scaffold_feature
    simp only [hm]
    rw [hfiles]
    exact scaffoldGo_plan_error st archetype (mkContext name description) target bad post e
      hbad pre fs [] items hpre
  refine ⟨hmain, fun q hq => ?_⟩
  rw [hmain]
  have hnone : findLast items q = none := findLast_eq_none items q hq
  rw [read_applyWrites, hnone]

/-- Witness data for C9: four file specs whose third template is missing. -/
def c9Manifest : Manifest :=
  { name := "x".toList, displayName := "X".toList, description := "d".toList,
    files := [{ layer := "a".toList, template := "t1".toList, output := "a.rs".toList },
              { layer := "b".toList, template := "t2".toList, output := "b.rs".toList },
              { layer := "c".toList, template := "t3".toList, output := "c.rs".toList },
              { layer := "e".toList, template := "t4".toList, output := "e.rs".toList }] }

def c9Store : Store :=
  [("x".toList,
    { manifest := some c9Manifest
      templates := [("t1".toList, "one".toList), ("t2".toList, "two".toList),
                    ("t4".toList, "four".toList)] })]

def c9Items : List (Str × Str × Str) :=
  [("a".toList, "t/a.rs".toList, "one".toList), ("b".toList, "t/b.rs".toList, "two".toList)]

/-- Witness for C9: the first two files are written, the third template is
missing, the error aborts the run and the fourth file is never written. -/
theorem scaffold_feature_non_atomic_witness :
    (load_archetype c9Store ("x".toList) = Except.ok c9Manifest ∧
      planItems c9Store ("x".toList) (mkContext ("ab".toList) ("dd".toList)) ("t".toList)
        [{ layer := "a".toList, template := "t1".toList, output := "a.rs".toList },
         { layer := "b".toList, template := "t2".toList, output := "b.rs".toList }] =
        Except.ok c9Items ∧
      load_template c9Store ("x".toList) ("t3".toList) =
        Except.error ("Template not found: ".toList ++ archetypesPath ++
          '/' :: "x".toList ++ '/' :: "t3".toList)) ∧
    (scaffold_feature c9Store [] ("ab".toList) ("dd".toList) ("x".toList) ("t".toList) =
      (applyWrites c9Items [], Except.error ("Template not found: ".toList ++ archetypesPath ++
        '/' :: "x".toList ++ '/' :: "t3".toList)) ∧
    (∀ q, (∀ it ∈ c9Items, q ≠ it.2.1) →
      FS.read (scaffold_feature c9Store [] ("ab".toList) ("dd".toList) ("x".toList)
        ("t".toList)).1 q = FS.read [] q)) :=
  ⟨⟨by decide, by decide, by decide⟩,
    scaffold_feature_non_atomic c9Store [] ("ab".toList) ("dd".toList) ("x".toList) ("t".toList)
      c9Manifest
      [{ layer := "a".toList, template := "t1".toList, output := "a.rs".toList },
       { layer := "b".toList, template := "t2".toList, output := "b.rs".toList }]
      { layer := "c".toList, template := "t3".toList, output := "c.rs".toList }
      [{ layer := "e".toList, template := "t4".toList, output := "e.rs".toList }]
      c9Items
      ("Template not found: ".toList ++ archetypesPath ++ '/' :: "x".toList ++ '/' :: "t3".toList)
      (by decide) rfl (by decide) (by decide)⟩

/-! ## C2: render as simultaneous substitution on well-formed templates -/

/-- A template segment: literal text or a `\x7b\x7bkey\x7d\x7d` placeholder token. -/
inductive Seg where
  | lit : Str → Seg
  | tok : Str → Seg
  deriving DecidableEq

/-- The text of a segment. -/
def Seg.flat : Seg → Str
  | .lit s => s
  | .tok k => tokOf k

/-- The template text denoted by a list of segments. -/
def flatSegs (segs : List Seg) : Str :=
  (segs.map Seg.flat).flatten

/-- A string without brace characters. -/
def braceFree (s : Str) : Prop :=
  '{' ∉ s ∧ '}' ∉ s

/-- Well-formed segment: its literal text or key is brace-free. -/
def segWF : Seg → Prop
  | .lit s => braceFree s
  | .tok k => braceFree k

instance (s : Str) : Decidable (braceFree s) :=
  inferInstanceAs (Decidable ('{' ∉ s ∧ '}' ∉ s))

instance (sg : Seg) : Decidable (segWF sg) :=
  match sg with
  | .lit s => inferInstanceAs (Decidable (braceFree s))
  | .tok k => inferInstanceAs (Decidable (braceFree k))

/-- Simultaneous substitution, as the specification reads: a token whose key
is in the context becomes that key's value; any other token stays verbatim;
literal text is untouched. -/
def Seg.subst (ctx : List (Str × Str)) : Seg → Str
  | .lit s => s
  | .tok k =>
    match ctx.lookup k with
    | some v => v
    | none => tokOf k

/-- The effect of one `str.replace` pass on a segment. -/
def replaceSeg (k v : Str) : Seg → Seg
  | .lit s => .lit s
  | .tok k' => if k' = k then .lit v else .tok k'

theorem notPrefix_of_head_ne {a b : Char} {l₁ l₂ : Str} (h : a ≠ b) :
    ¬ (a :: l₁ <+: b :: l₂) := by
  intro hp
  exact h (List.cons_prefix_cons.mp hp).1

theorem replaceAll_append_lit (k v : Str) :
    ∀ (w r : Str), '{' ∉ w →
      replaceAll (tokOf k) v (w ++ r) = w ++ replaceAll (tokOf k) v r := by
  intro w
  induction w with
  | nil => intro r _; simp
  | cons c w' ih =>
    intro r hw
    have hc : c ≠ '{' := fun h => hw (by rw [← h]; exact List.mem_cons_self _ _)
    have hne : tokOf k ≠ [] := by simp [tokOf]
    have hnp : ¬ ('{' :: ('{' :: (k ++ ['}', '}']))) <+: c :: (w' ++ r) :=
      notPrefix_of_head_ne (Ne.symm hc)
    rw [List.cons_append, replaceAll_cons_neg _ _ _ _ hne hnp,
      ih r (fun h => hw (List.mem_cons_of_mem _ h)), List.cons_append]

theorem replaceAll_tok_self (k v r : Str) :
    replaceAll (tokOf k) v (tokOf k ++ r) = v ++ replaceAll (tokOf k) v r := by
  have hne : tokOf k ≠ [] := by simp [tokOf]
  have hcons : tokOf k ++ r = '{' :: ('{' :: (k ++ ['}', '}']) ++ r) := rfl
  have hpre : tokOf k <+: '{' :: ('{' :: (k ++ ['}', '}']) ++ r) := List.prefix_append _ _
  rw [hcons, replaceAll_cons_pos _ _ _ _ hne hpre]
  congr 1
  have hback : ('{' :: ('{' :: (k ++ ['}', '}']) ++ r)) = tokOf k ++ r := rfl
  rw [hback, List.drop_left]

theorem tokTail_no_match (r : Str) :
    ∀ (k k' : Str), braceFree k → braceFree k' → k ≠ k' →
      ¬ ((k ++ ['}', '}']) <+: (k' ++ ('}' :: '}' :: r))) := by
  intro k
  induction k with
  | nil =>
    intro k' _ hk' hne
    cases k' with
    | nil => exact absurd rfl hne
    | cons c' k₀' =>
      intro hp
      rw [List.nil_append, List.cons_append] at hp
      have hc : c' = '}' := ((List.cons_prefix_cons.mp hp).1).symm
      exact hk'.2 (by rw [← hc]; exact List.mem_cons_self _ _)
  | cons c k₀ ih =>
    intro k' hk hk' hne
    have hc : c ≠ '}' := fun h => hk.2 (by rw [← h]; exact List.mem_cons_self _ _)
    have hktail : braceFree k₀ :=
      ⟨fun h => hk.1 (List.mem_cons_of_mem _ h), fun h => hk.2 (List.mem_cons_of_mem _ h)⟩
    cases k' with
    | nil =>
      intro hp
      rw [List.cons_append, List.nil_append] at hp
      exact hc (List.cons_prefix_cons.mp hp).1
    | cons c' k₀' =>
      intro hp
      rw [List.cons_append, List.cons_append] at hp
      obtain ⟨hcc, hp'⟩ := List.cons_prefix_cons.mp hp
      by_cases hcs : c = c'
      · subst hcs
        have hker : k₀ ≠ k₀' := fun h => hne (by rw [h])
        have hk'tail : braceFree k₀' :=
          ⟨fun h => hk'.1 (List.mem_cons_of_mem _ h), fun h => hk'.2 (List.mem_cons_of_mem _ h)⟩
        exact ih k₀' hktail hk'tail hker hp'
      · exact hcs hcc

theorem replaceAll_tok_other (k v k' : Str) (hk : braceFree k) (hk' : braceFree k')
    (hne : k ≠ k') (r : Str) :
    replaceAll (tokOf k) v (tokOf k' ++ r) = tokOf k' ++ replaceAll (tokOf k) v r := by
  have hpne : tokOf k ≠ [] := by simp [tokOf]
  have hshape : tokOf k' ++ r = '{' :: '{' :: (k' ++ ('}' :: '}' :: r)) := by
    simp [tokOf, List.append_assoc]
  rw [hshape]
  have h1 : ¬ tokOf k <+: '{' :: '{' :: (k' ++ ('}' :: '}' :: r)) := by
    intro hp
    have hp1 := (List.cons_prefix_cons.mp hp).2
    have hp2 := (List.cons_prefix_cons.mp hp1).2
    exact tokTail_no_match r k k' hk hk' hne hp2
  rw [replaceAll_cons_neg _ _ _ _ hpne h1]
  have h2 : ¬ tokOf k <+: '{' :: (k' ++ ('}' :: '}' :: r)) := by
    intro hp
    have hp1 := (List.cons_prefix_cons.mp hp).2
    cases k' with
    | nil =>
      rw [List.nil_append] at hp1
      exact absurd (List.cons_prefix_cons.mp hp1).1 (by decide)
    | cons c' t' =>
      rw [List.cons_append] at hp1
      have hcc : '{' = c' := (List.cons_prefix_cons.mp hp1).1
      exact hk'.1 (by rw [hcc]; exact List.mem_cons_self _ _)
  rw [replaceAll_cons_neg _ _ _ _ hpne h2]
  rw [replaceAll_append_lit k v k' _ hk'.1]
  have h3 : ¬ tokOf k <+: '}' :: ('}' :: r) := by
    intro hp
    exact absurd (List.cons_prefix_cons.mp hp).1 (by decide)
  rw [replaceAll_cons_neg _ _ _ _ hpne h3]
  have h4 : ¬ tokOf k <+: '}' :: r := by
    intro hp
    exact absurd (List.cons_prefix_cons.mp hp).1 (by decide)
  rw [replaceAll_cons_neg _ _ _ _ hpne h4]
  simp [tokOf, List.append_assoc]

theorem replaceAll_flatSegs (k v : Str) (hk : braceFree k) :
    ∀ segs : List Seg, (∀ sg ∈ segs, segWF sg) →
      replaceAll (tokOf k) v (flatSegs segs) = flatSegs (segs.map (replaceSeg k v)) := by
  intro segs
  induction segs with
  | nil =>
    intro _
    have hne : tokOf k ≠ [] := by simp [tokOf]
    simp [flatSegs, replaceAll_nil, hne]
  | cons sg rest ih =>
    intro hwf
    have hhead : flatSegs (sg :: rest) = Seg.flat sg ++ flatSegs rest := by
      simp [flatSegs]
    have hrest := ih (fun s hs => hwf s (List.mem_cons_of_mem _ hs))
    cases sg with
    | lit s =>
      have hs : braceFree s := hwf (Seg.lit s) (List.mem_cons_self _ _)
      rw [hhead]
      show replaceAll (tokOf k) v (s ++ flatSegs rest) = flatSegs (Seg.lit s :: rest.map (replaceSeg k v))
      rw [replaceAll_append_lit k v s _ hs.1, hrest]
      simp [flatSegs, Seg.flat]
    | tok k' =>
      by_cases hkk : k' = k
      · subst hkk
        rw [hhead]
        show replaceAll (tokOf k') v (tokOf k' ++ flatSegs rest) =
          flatSegs (replaceSeg k' v (Seg.tok k') :: rest.map (replaceSeg k' v))
        rw [replaceAll_tok_self, hrest]
        simp [flatSegs, replaceSeg, Seg.flat]
      · have hk' : braceFree k' := hwf (Seg.tok k') (List.mem_cons_self _ _)
        rw [hhead]
        show replaceAll (tokOf k) v (tokOf k' ++ flatSegs rest) =
          flatSegs (replaceSeg k v (Seg.tok k') :: rest.map (replaceSeg k v))
        rw [replaceAll_tok_other k v k' hk hk' (fun h => hkk h.symm), hrest]
        simp [flatSegs, replaceSeg, hkk, Seg.flat]

/-- C2, amended: with the empty context `render_template` returns the
template unchanged; and for every context whose keys and values are free of
brace characters, and every template assembled from brace-free literal text
interleaved with `\x7b\x7bkey\x7d\x7d` tokens over brace-free keys,
`render_template` computes the simultaneous substitution the claim
describes: every token whose key is in the context is replaced (at all its
occurrences) by that key's value, tokens with keys not in the context stay
verbatim, and literal text is returned unchanged.  (Unrestricted, the claim
fails: see the counterexample, where a substituted value containing a later
key's token is itself rewritten.) -/
theorem render_template_c2_amended :
    (∀ t : Str, render_template t [] = t) ∧
    (∀ (ctx : List (Str × Str)) (segs : List Seg),
      (∀ kv ∈ ctx, braceFree kv.1 ∧ braceFree kv.2) →
      (∀ sg ∈ segs, segWF sg) →
      render_template (flatSegs segs) ctx = (segs.map (Seg.subst ctx)).flatten) := by
  constructor
  · intro t
    rfl
  · intro ctx
    induction ctx with
    | nil =>
      intro segs _ _
      have hpt : ∀ sg : Seg, Seg.subst [] sg = Seg.flat sg := by
        intro sg
        cases sg <;> rfl
      show flatSegs segs = _
      rw [funext hpt]
      rfl
    | cons kv ctx' ih =>
      intro segs hctx hsegs
      obtain ⟨k, v⟩ := kv
      have hk : braceFree k := (hctx (k, v) (List.mem_cons_self _ _)).1
      have hv : braceFree v := (hctx (k, v) (List.mem_cons_self _ _)).2
      have hstep : render_template (flatSegs segs) ((k, v) :: ctx') =
          render_template (replaceAll (tokOf k) v (flatSegs segs)) ctx' := rfl
      rw [hstep, replaceAll_flatSegs k v hk segs hsegs]
      have hwf' : ∀ sg ∈ segs.map (replaceSeg k v), segWF sg := by
        intro sg hsg
        rcases List.mem_map.mp hsg with ⟨sg₀, hsg₀, rfl⟩
        cases sg₀ with
        | lit s => exact hsegs (Seg.lit s) hsg₀
        | tok k' =>
          by_cases hkk : k' = k
          · subst hkk
            show segWF (if k' = k' then Seg.lit v else Seg.tok k')
            rw [if_pos rfl]
            exact hv
          · show segWF (if k' = k then Seg.lit v else Seg.tok k')
            rw [if_neg hkk]
            exact hsegs (Seg.tok k') hsg₀
      rw [ih (segs.map (replaceSeg k v)) (fun kv' h => hctx kv' (List.mem_cons_of_mem _ h)) hwf']
      rw [List.map_map]
      have hpt : ∀ sg : Seg, Seg.subst ctx' (replaceSeg k v sg) = Seg.subst ((k, v) :: ctx') sg := by
        intro sg
        cases sg with
        | lit s => rfl
        | tok k' =>
          by_cases hkk : k' = k
          · subst hkk
            show Seg.subst ctx' (if k' = k' then Seg.lit v else Seg.tok k') = _
            rw [if_pos rfl]
            show v = _
            simp [Seg.subst, List.lookup]
          · show Seg.subst ctx' (if k' = k then Seg.lit v else Seg.tok k') = _
            rw [if_neg hkk]
            have hbeq : (k' == k) = false := by simpa using hkk
            simp [Seg.subst, List.lookup, hbeq]
      rw [show (Seg.subst ctx' ∘ replaceSeg k v) = Seg.subst ((k, v) :: ctx') from funext hpt]

/-- Witness for the amended C2: the template `Hello \x7b\x7bname\x7d\x7d!\x7b\x7bmissing\x7d\x7d`
with context `name := world`. -/
theorem render_template_c2_witness :
    ((∀ kv ∈ [("name".toList, "world".toList)],
        braceFree kv.1 ∧ braceFree kv.2) ∧
      (∀ sg ∈ [Seg.lit ("Hello ".toList), Seg.tok ("name".toList), Seg.lit ("!".toList),
          Seg.tok ("missing".toList)], segWF sg)) ∧
    render_template
        (flatSegs [Seg.lit ("Hello ".toList), Seg.tok ("name".toList), Seg.lit ("!".toList),
          Seg.tok ("missing".toList)])
        [("name".toList, "world".toList)] =
      (([Seg.lit ("Hello ".toList), Seg.tok ("name".toList), Seg.lit ("!".toList),
          Seg.tok ("missing".toList)]).map
        (Seg.subst [("name".toList, "world".toList)])).flatten :=
  ⟨⟨by decide, by decide⟩,
    render_template_c2_amended.2 [("name".toList, "world".toList)]
      [Seg.lit ("Hello ".toList), Seg.tok ("name".toList), Seg.lit ("!".toList),
        Seg.tok ("missing".toList)] (by decide) (by decide)⟩
